import Mathlib

/-!
Verification of the video-quick-eval acquisition & transcription pipeline.

Shallow embedding of the repository's Python sources:
  * `bilibili_search.py` — duration codec (`_parse_duration`, `format_duration`),
    play-count formatter (`format_play_count`), search-result normalisation
    (`search_bilibili_videos` result loop);
  * `utils.py` — `extract_video_id`;
  * `downloader.py` — backend registry (`get_downloader`), local-file backend
    validation (`LocalVideoDownloader.download` / `.download_video`), remote
    cached video download (`BilibiliDownloader.download_video`,
    `YoutubeDownloader.download_video`);
  * `transcriber.py` — `WhisperTranscriber.transcript` segment assembly.

Python strings are modelled as `List Char`; Python `int` values that are
non-negative in every reachable use are modelled as `Nat`, signed results as
`Int`.  Python binary64 floats are modelled exactly, as the rational value of
the correctly-rounded double (overflow to infinity is not modelled; all values
of interest are finite and normal).
-/

namespace VQE

/-- Python strings are modelled as lists of characters. -/
abbrev Str := List Char

/-- The ASCII whitespace characters recognised by Python's `str.strip()`
(the full Unicode whitespace set is larger; only ASCII whitespace occurs in
the inputs of interest). -/
def isSpace (c : Char) : Bool :=
  c = ' ' || c = '\t' || c = '\n' || c = '\x0d' || c = '\x0b' || c = '\x0c'

/-- Python `str.strip()`: drop trailing whitespace, then leading whitespace. -/
def pyStripL (l : Str) : Str :=
  ((l.reverse.dropWhile isSpace).reverse).dropWhile isSpace

/-- The decimal digit character for `d < 10` (`'0'` + d). -/
def digitChar (d : Nat) : Char := Char.ofNat (48 + d)

/-- Little-endian base-10 digits of `n`, computed with explicit fuel so the
kernel can evaluate it (equal to `Nat.digits 10 n` once `n ≤ fuel`). -/
def digitsRev : Nat → Nat → List Nat
  | _, 0 => []
  | 0, _ + 1 => []
  | fuel + 1, n + 1 => (n + 1) % 10 :: digitsRev fuel ((n + 1) / 10)

/-- Decimal rendering of a natural number, as produced by Python `str(n)` /
f-string interpolation of a non-negative int: most-significant digit first. -/
def natRepr (n : Nat) : Str :=
  if n = 0 then ['0'] else ((digitsRev n n).map digitChar).reverse

/-- Value of a decimal digit character, `none` for non-digits. -/
def digitVal? (c : Char) : Option Nat :=
  if c.isDigit then some (c.toNat - 48) else none

/-- Accumulating decimal parse over a (most-significant-first) digit string;
fails on the first non-digit character. -/
def parseDigitsGo (acc : Nat) : Str → Option Nat
  | [] => some acc
  | c :: cs =>
    match digitVal? c with
    | some d => parseDigitsGo (acc * 10 + d) cs
    | none => none

/-- Parse a non-empty all-digit string as a natural number. -/
def parseDigits (l : Str) : Option Nat :=
  if l = [] then none else parseDigitsGo 0 l

/-- Python `int(s)` on a string: strips whitespace, allows one optional sign,
then decimal digits; any other shape raises (here: `none`).  (Python's
underscore digit separators and non-ASCII digits are not modelled; none occur
in the strings this program feeds to `int`.) -/
def pyInt (s : Str) : Option Int :=
  let t := pyStripL s
  match t with
  | [] => none
  | c :: cs =>
    if c = '+' then (parseDigits cs).map (fun n => (n : Int))
    else if c = '-' then (parseDigits cs).map (fun n => -(n : Int))
    else (parseDigits (c :: cs)).map (fun n => (n : Int))

/-- Python `s.split(':')` (non-empty separator): `""` yields `[""]`. -/
def pySplit : Str → List Str
  | [] => [[]]
  | c :: cs =>
    if c = ':' then [] :: pySplit cs
    else
      match pySplit cs with
      | [] => [[c]]
      | p :: ps => (c :: p) :: ps

/-!  ## Duration codec (`bilibili_search.py`) -/

/-- Embedding of `_parse_duration` (bilibili_search.py:108-124): split on
`':'`; two parts are `MM:SS`, three are `HH:MM:SS`; any other shape, or a part
on which `int` raises, yields `0` (the `try`/`except` swallows the error). -/
def parse_duration (s : Str) : Int :=
  match pySplit s with
  | [a, b] =>
    match pyInt a, pyInt b with
    | some x, some y => x * 60 + y
    | _, _ => 0
  | [a, b, c] =>
    match pyInt a, pyInt b, pyInt c with
    | some x, some y, some z => x * 3600 + y * 60 + z
    | _, _, _ => 0
  | _ => 0

/-- Python `f"{n:02d}"` for non-negative `n`: zero-pad the decimal rendering
to width 2. -/
def pad2 (n : Nat) : Str :=
  if n < 10 then '0' :: natRepr n else natRepr n

/-- Embedding of `format_duration` (bilibili_search.py:126-139) for the
non-negative seconds every reachable call supplies (Python `//`/`%` agree with
`Nat` division there). -/
def format_duration (seconds : Nat) : Str :=
  if seconds < 3600 then
    natRepr (seconds / 60) ++ ':' :: pad2 (seconds % 60)
  else
    natRepr (seconds / 3600) ++ ':' :: (pad2 ((seconds % 3600) / 60) ++ ':' :: pad2 (seconds % 60))

/-!  ## Decimal rendering / parsing lemmas -/

lemma digitsRev_eq (fuel : Nat) : ∀ n : Nat, n ≤ fuel → digitsRev fuel n = Nat.digits 10 n := by
  induction fuel with
  | zero =>
    intro n hn
    interval_cases n
    simp [digitsRev]
  | succ f ih =>
    intro n hn
    cases n with
    | zero => simp [digitsRev]
    | succ m =>
      have hdiv : (m + 1) / 10 ≤ f := by
        have h1 : (m + 1) / 10 < m + 1 := Nat.div_lt_self (Nat.succ_pos m) (by norm_num)
        omega
      simp only [digitsRev]
      rw [ih _ hdiv, Nat.digits_def' (by norm_num : (1 : Nat) < 10) (Nat.succ_pos m)]

lemma natRepr_eq (n : Nat) :
    natRepr n = if n = 0 then ['0'] else ((Nat.digits 10 n).map digitChar).reverse := by
  unfold natRepr
  by_cases h : n = 0
  · simp [h]
  · rw [if_neg h, if_neg h, digitsRev_eq n n le_rfl]

lemma digitChar_spec (d : Nat) (hd : d < 10) :
    digitVal? (digitChar d) = some d ∧ isSpace (digitChar d) = false ∧
    digitChar d ≠ '+' ∧ digitChar d ≠ '-' ∧ digitChar d ≠ ':' := by
  interval_cases d <;> exact ⟨by decide, by decide, by decide, by decide, by decide⟩

lemma parseDigitsGo_append (xs : Str) :
    ∀ (acc : Nat) (ys : Str),
      parseDigitsGo acc (xs ++ ys) = (parseDigitsGo acc xs).bind (fun a => parseDigitsGo a ys) := by
  induction xs with
  | nil => intro acc ys; rfl
  | cons c cs ih =>
    intro acc ys
    cases h : digitVal? c with
    | none => simp [parseDigitsGo, h]
    | some d => simp [parseDigitsGo, h, ih]

lemma parseDigitsGo_rev (ds : List Nat) (h : ∀ d ∈ ds, d < 10) :
    ∀ acc, parseDigitsGo acc ((ds.map digitChar).reverse)
      = some (acc * 10 ^ ds.length + Nat.ofDigits 10 ds) := by
  induction ds with
  | nil => intro acc; simp [parseDigitsGo, Nat.ofDigits_nil]
  | cons d ds ih =>
    intro acc
    have hd : d < 10 := h d (by simp)
    have hds : ∀ x ∈ ds, x < 10 := fun x hx => h x (by simp [hx])
    simp only [List.map_cons, List.reverse_cons]
    rw [parseDigitsGo_append, ih hds acc]
    simp only [Option.some_bind, parseDigitsGo, (digitChar_spec d hd).1, Nat.ofDigits_cons,
      List.length_cons]
    congr 1
    ring

lemma natRepr_ne_nil (n : Nat) : natRepr n ≠ [] := by
  rw [natRepr_eq]
  by_cases h : n = 0
  · simp [h]
  · simp [h, Nat.digits_ne_nil_iff_ne_zero.mpr h]

lemma parseDigitsGo_natRepr (n : Nat) (acc : Nat) :
    parseDigitsGo acc (natRepr n) = some (acc * 10 ^ (natRepr n).length + n) := by
  rw [natRepr_eq]
  by_cases h : n = 0
  · subst h
    simp [parseDigitsGo, digitVal?]
  · rw [if_neg h]
    rw [parseDigitsGo_rev (Nat.digits 10 n) (fun d hd => Nat.digits_lt_base (by norm_num) hd) acc]
    rw [Nat.ofDigits_digits]
    simp

lemma parseDigits_natRepr (n : Nat) : parseDigits (natRepr n) = some n := by
  unfold parseDigits
  rw [if_neg (natRepr_ne_nil n), parseDigitsGo_natRepr]
  simp

lemma natRepr_chars (n : Nat) : ∀ c ∈ natRepr n, ∃ d, d < 10 ∧ c = digitChar d := by
  rw [natRepr_eq]
  by_cases h : n = 0
  · intro c hc
    rw [if_pos h] at hc
    simp at hc
    exact ⟨0, by norm_num, by rw [hc]; rfl⟩
  · intro c hc
    rw [if_neg h] at hc
    rw [List.mem_reverse] at hc
    rcases List.mem_map.mp hc with ⟨d, hd, rfl⟩
    exact ⟨d, Nat.digits_lt_base (by norm_num) hd, rfl⟩

lemma pad2_chars (n : Nat) : ∀ c ∈ pad2 n, ∃ d, d < 10 ∧ c = digitChar d := by
  unfold pad2
  by_cases h : n < 10
  · intro c hc
    rw [if_pos h] at hc
    rcases List.mem_cons.mp hc with h0 | hmem
    · exact ⟨0, by norm_num, by rw [h0]; rfl⟩
    · exact natRepr_chars n c hmem
  · rw [if_neg h]
    exact natRepr_chars n

lemma pad2_ne_nil (n : Nat) : pad2 n ≠ [] := by
  unfold pad2
  by_cases h : n < 10
  · simp [h]
  · rw [if_neg h]; exact natRepr_ne_nil n

lemma parseDigits_pad2 (n : Nat) : parseDigits (pad2 n) = some n := by
  unfold pad2
  by_cases h : n < 10
  · rw [if_pos h]
    unfold parseDigits
    rw [if_neg (by simp)]
    show parseDigitsGo 0 ('0' :: natRepr n) = some n
    have h0 : digitVal? '0' = some 0 := by decide
    simp only [parseDigitsGo, h0]
    rw [parseDigitsGo_natRepr]
    simp
  · rw [if_neg h]
    exact parseDigits_natRepr n

lemma dropWhile_eq_self (p : Char → Bool) (l : Str) (h : ∀ c ∈ l, p c = false) :
    l.dropWhile p = l := by
  cases l with
  | nil => rfl
  | cons a t => simp [List.dropWhile_cons, h a (by simp)]

lemma pyStripL_eq_self (l : Str) (h : ∀ c ∈ l, isSpace c = false) : pyStripL l = l := by
  unfold pyStripL
  rw [dropWhile_eq_self _ _ (fun c hc => h c (List.mem_reverse.mp hc)), List.reverse_reverse,
    dropWhile_eq_self _ _ h]

lemma pyInt_digitChars (l : Str) (hne : l ≠ [])
    (h : ∀ c ∈ l, ∃ d, d < 10 ∧ c = digitChar d) :
    pyInt l = (parseDigits l).map (fun n => (n : Int)) := by
  have hns : ∀ c ∈ l, isSpace c = false := by
    intro c hc
    obtain ⟨d, hd, rfl⟩ := h c hc
    exact (digitChar_spec d hd).2.1
  unfold pyInt
  rw [pyStripL_eq_self l hns]
  cases l with
  | nil => exact absurd rfl hne
  | cons c cs =>
    obtain ⟨d, hd, rfl⟩ := h c (by simp)
    obtain ⟨_, _, hplus, hminus, _⟩ := digitChar_spec d hd
    simp only [if_neg hplus, if_neg hminus]

lemma pyInt_natRepr (n : Nat) : pyInt (natRepr n) = some (n : Int) := by
  rw [pyInt_digitChars _ (natRepr_ne_nil n) (natRepr_chars n), parseDigits_natRepr]
  rfl

lemma pyInt_pad2 (n : Nat) : pyInt (pad2 n) = some (n : Int) := by
  rw [pyInt_digitChars _ (pad2_ne_nil n) (pad2_chars n), parseDigits_pad2]
  rfl

lemma natRepr_no_colon (n : Nat) : ∀ c ∈ natRepr n, c ≠ ':' := by
  intro c hc
  obtain ⟨d, hd, rfl⟩ := natRepr_chars n c hc
  exact (digitChar_spec d hd).2.2.2.2

lemma pad2_no_colon (n : Nat) : ∀ c ∈ pad2 n, c ≠ ':' := by
  intro c hc
  obtain ⟨d, hd, rfl⟩ := pad2_chars n c hc
  exact (digitChar_spec d hd).2.2.2.2

/-!  ## Split lemmas -/

lemma pySplit_no_colon (l : Str) (h : ∀ c ∈ l, c ≠ ':') : pySplit l = [l] := by
  induction l with
  | nil => rfl
  | cons c cs ih =>
    have hc : c ≠ ':' := h c (by simp)
    have ihh : pySplit cs = [cs] := ih (fun x hx => h x (by simp [hx]))
    simp only [pySplit, if_neg hc, ihh]

lemma pySplit_append (a b : Str) (h : ∀ c ∈ a, c ≠ ':') :
    pySplit (a ++ ':' :: b) = a :: pySplit b := by
  induction a with
  | nil => simp [pySplit]
  | cons c cs ih =>
    have hc : c ≠ ':' := h c (by simp)
    have ihh := ih (fun x hx => h x (by simp [hx]))
    simp only [List.cons_append, pySplit, if_neg hc, List.append_eq, ihh]

/-!  ## C2: duration round-trip -/

lemma duration_roundtrip (d : Nat) :
    parse_duration (format_duration d) = (d : Int) := by
  by_cases h1 : d < 3600
  · have hsplit : pySplit (natRepr (d / 60) ++ ':' :: pad2 (d % 60))
        = [natRepr (d / 60), pad2 (d % 60)] := by
      rw [pySplit_append _ _ (natRepr_no_colon _), pySplit_no_colon _ (pad2_no_colon _)]
    unfold format_duration
    rw [if_pos h1]
    unfold parse_duration
    rw [hsplit]
    simp only [pyInt_natRepr, pyInt_pad2]
    omega
  · have hsplit : pySplit (natRepr (d / 3600) ++ ':' :: (pad2 ((d % 3600) / 60) ++ ':' :: pad2 (d % 60)))
        = [natRepr (d / 3600), pad2 ((d % 3600) / 60), pad2 (d % 60)] := by
      rw [pySplit_append _ _ (natRepr_no_colon _), pySplit_append _ _ (pad2_no_colon _),
        pySplit_no_colon _ (pad2_no_colon _)]
    unfold format_duration
    rw [if_neg h1]
    unfold parse_duration
    rw [hsplit]
    simp only [pyInt_natRepr, pyInt_pad2]
    omega

/-- C2: for every integer number of seconds `d` with `0 ≤ d < 86400`,
`parse_duration (format_duration d) = d`; `format_duration` renders `d < 3600`
as `M:SS` with seconds zero-padded to two digits and `d ≥ 3600` as `H:MM:SS`
with minutes and seconds zero-padded, and `parse_duration` inverts both
shapes (witnessed by the concrete renderings below). -/
theorem claimC2_duration_codec_roundtrip :
    (∀ d : Nat, d < 86400 → parse_duration (format_duration d) = (d : Int)) ∧
    format_duration 630 = "10:30".toList ∧
    format_duration 61 = "1:01".toList ∧
    format_duration 3920 = "1:05:20".toList ∧
    format_duration 3601 = "1:00:01".toList :=
  ⟨fun d _ => duration_roundtrip d, by decide, by decide, by decide, by decide⟩

/-- Witness for C2: the round-trip at the concrete duration 3920 s. -/
theorem claimC2_witness :
    (3920 : Nat) < 86400 ∧ parse_duration (format_duration 3920) = (3920 : Int) :=
  ⟨by decide, claimC2_duration_codec_roundtrip.1 3920 (by decide)⟩

/-- C6: `parse_duration` splits on `':'` and returns `minutes*60+seconds` for a
2-part string, `hours*3600+minutes*60+seconds` for a 3-part string, and `0` for
any other number of parts or any non-numeric part, never raising; in particular
`parse_duration "10:30" = 630`, `parse_duration "1:05:20" = 3920`,
`parse_duration "garbage" = 0` and `parse_duration "" = 0`. -/
theorem claimC6_parse_duration_lenient :
    parse_duration "10:30".toList = 630 ∧
    parse_duration "1:05:20".toList = 3920 ∧
    parse_duration "garbage".toList = 0 ∧
    parse_duration "".toList = 0 ∧
    (∀ s a b x y, pySplit s = [a, b] → pyInt a = some x → pyInt b = some y →
      parse_duration s = x * 60 + y) ∧
    (∀ s a b c x y z, pySplit s = [a, b, c] → pyInt a = some x → pyInt b = some y →
      pyInt c = some z → parse_duration s = x * 3600 + y * 60 + z) ∧
    (∀ s a b, pySplit s = [a, b] → pyInt a = none ∨ pyInt b = none →
      parse_duration s = 0) ∧
    (∀ s a b c, pySplit s = [a, b, c] →
      pyInt a = none ∨ pyInt b = none ∨ pyInt c = none → parse_duration s = 0) ∧
    (∀ s, (pySplit s).length ≠ 2 → (pySplit s).length ≠ 3 → parse_duration s = 0) := by
  refine ⟨by decide, by decide, by decide, by decide, ?_, ?_, ?_, ?_, ?_⟩
  · intro s a b x y hs ha hb
    unfold parse_duration
    rw [hs]
    simp [ha, hb]
  · intro s a b c x y z hs ha hb hc
    unfold parse_duration
    rw [hs]
    simp [ha, hb, hc]
  · intro s a b hs hor
    unfold parse_duration
    rw [hs]
    rcases hor with ha | hb
    · simp [ha]
    · cases hx : pyInt a <;> simp [hx, hb]
  · intro s a b c hs hor
    unfold parse_duration
    rw [hs]
    rcases hor with ha | hb | hc
    · simp [ha]
    · cases hx : pyInt a <;> simp [hx, hb]
    · cases hx : pyInt a <;> cases hy : pyInt b <;> simp [hx, hy, hc]
  · intro s h2 h3
    unfold parse_duration
    rcases hp : pySplit s with _ | ⟨a, _ | ⟨b, _ | ⟨c, _ | ⟨e, t⟩⟩⟩⟩
    · rfl
    · rfl
    · rw [hp] at h2
      simp at h2
    · rw [hp] at h3
      simp at h3
    · rfl

/-- Witness for C6: the 2-part clause applied at the concrete string "7:08". -/
theorem claimC6_witness : parse_duration "7:08".toList = 7 * 60 + 8 :=
  claimC6_parse_duration_lenient.2.2.2.2.1 "7:08".toList "7".toList "08".toList 7 8
    (by decide) (by decide) (by decide)

/-!  ## Transcription engine (`transcriber.py`)

A raw segment is what the model runtime yields (`seg.start`, `seg.end`,
`seg.text`); timestamps are copied through unchanged and are modelled as
rationals. -/

structure RawSegment where
  start : ℚ
  stop : ℚ
  text : Str
  deriving DecidableEq

structure TranscriptSegment where
  start : ℚ
  stop : ℚ
  text : Str
  deriving DecidableEq

structure TranscriptResult where
  language : Option Str
  full_text : Str
  segments : List TranscriptSegment
  raw : Option Unit
  deriving DecidableEq

/-- Embedding of `WhisperTranscriber.transcript` (transcriber.py:116-151):
for each raw segment, strip its text, append `text + " "` to the running
`full_text` and append the stripped segment to `segments`; the result holds
`full_text.strip()`, the segments, and `raw = None`. -/
def transcript (language : Option Str) (segments_raw : List RawSegment) : TranscriptResult :=
  let p := segments_raw.foldl
    (fun (acc : Str × List TranscriptSegment) seg =>
      (acc.1 ++ pyStripL seg.text ++ [' '],
        acc.2 ++ [⟨seg.start, seg.stop, pyStripL seg.text⟩]))
    ([], [])
  ⟨language, pyStripL p.1, p.2, none⟩

/-- Modelled from the spec's words: the single-space-join of a list of
strings (`" ".join`-style), used to state what `full_text` must equal. -/
def joinSpace : List Str → Str
  | [] => []
  | [t] => t
  | t :: ts => t ++ ' ' :: joinSpace ts

/-- The text accumulated by the transcript loop: each stripped text followed
by one space. -/
def stripTrail : List RawSegment → Str
  | [] => []
  | r :: rs => pyStripL r.text ++ ' ' :: stripTrail rs

lemma transcript_fold (segs : List RawSegment) :
    ∀ (a : Str) (s : List TranscriptSegment),
      segs.foldl
        (fun (acc : Str × List TranscriptSegment) seg =>
          (acc.1 ++ pyStripL seg.text ++ [' '],
            acc.2 ++ [⟨seg.start, seg.stop, pyStripL seg.text⟩]))
        (a, s)
      = (a ++ stripTrail segs,
          s ++ segs.map (fun r => ⟨r.start, r.stop, pyStripL r.text⟩)) := by
  induction segs with
  | nil => intro a s; simp [stripTrail]
  | cons r rs ih =>
    intro a s
    simp only [List.foldl_cons, stripTrail, List.map_cons]
    rw [ih]
    simp [List.append_assoc]

lemma pyStripL_append_space (l : Str) : pyStripL (l ++ [' ']) = pyStripL l := by
  unfold pyStripL
  rw [List.reverse_append]
  simp [List.dropWhile_cons, isSpace]

lemma stripTrail_eq : ∀ (rs : List RawSegment) (r : RawSegment),
    stripTrail (r :: rs)
      = joinSpace ((r :: rs).map (fun seg => pyStripL seg.text)) ++ [' '] := by
  intro rs
  induction rs with
  | nil => intro r; simp [stripTrail, joinSpace]
  | cons r2 rs2 ih =>
    intro r
    show pyStripL r.text ++ ' ' :: stripTrail (r2 :: rs2) = _
    rw [ih r2]
    simp [joinSpace, List.append_assoc]

lemma transcript_spec (lang : Option Str) (segs : List RawSegment) :
    (transcript lang segs).full_text = pyStripL (stripTrail segs) ∧
    (transcript lang segs).segments
      = segs.map (fun r => ⟨r.start, r.stop, pyStripL r.text⟩) := by
  unfold transcript
  rw [transcript_fold]
  simp

lemma pyStripL_stripTrail (segs : List RawSegment) :
    pyStripL (stripTrail segs)
      = pyStripL (joinSpace (segs.map (fun seg => pyStripL seg.text))) := by
  cases segs with
  | nil => rfl
  | cons r rs => rw [stripTrail_eq rs r, pyStripL_append_space]

/-- C1: for every finite sequence of raw segments yielded by the model
runtime, `transcript` returns a result whose `full_text` equals the
single-space-joined concatenation of the whitespace-trimmed texts of all
segments, with leading/trailing whitespace trimmed, and whose segments carry
the trimmed texts in order; in particular for raw segments
`[(0.0, 1.0, "hello"), (1.0, 2.5, " world ")]` the result has
`full_text = "hello world"` and `segments[1].text = "world"`. -/
theorem claimC1_transcript_full_text :
    (∀ (lang : Option Str) (segs : List RawSegment),
      (transcript lang segs).full_text
        = pyStripL (joinSpace (segs.map (fun seg => pyStripL seg.text))) ∧
      (transcript lang segs).segments
        = segs.map (fun r => ⟨r.start, r.stop, pyStripL r.text⟩)) ∧
    (transcript (some "en".toList)
        [⟨0, 1, "hello".toList⟩, ⟨1, 5 / 2, " world ".toList⟩]).full_text
      = "hello world".toList ∧
    (transcript (some "en".toList)
        [⟨0, 1, "hello".toList⟩, ⟨1, 5 / 2, " world ".toList⟩]).segments
      = [⟨0, 1, "hello".toList⟩, ⟨1, 5 / 2, "world".toList⟩] := by
  refine ⟨fun lang segs => ?_, by decide, ?_⟩
  · obtain ⟨h1, h2⟩ := transcript_spec lang segs
    exact ⟨h1.trans (pyStripL_stripTrail segs), h2⟩
  · rw [(transcript_spec _ _).2]
    have hh : pyStripL "hello".toList = "hello".toList := by decide
    have hw : pyStripL " world ".toList = "world".toList := by decide
    simp only [List.map_cons, List.map_nil, hh, hw]

/-!  ## Video-ID extractor (`utils.py`) -/

/-- The regex character class `[0-9A-Za-z]`. -/
def isAlnum (c : Char) : Bool :=
  ('0' ≤ c && c ≤ '9') || ('A' ≤ c && c ≤ 'Z') || ('a' ≤ c && c ≤ 'z')

/-- `re.search(r"BV([0-9A-Za-z]+)", url)`: at each position, left to right,
try to match literal `BV` followed by at least one alphanumeric character;
on success the match is `"BV"` plus the maximal alphanumeric run. -/
def bvSearch : Str → Option Str
  | [] => none
  | c :: cs =>
    if c = 'B' then
      match cs with
      | 'V' :: d :: ds =>
        if isAlnum d then some ('B' :: 'V' :: d :: ds.takeWhile isAlnum)
        else bvSearch cs
      | _ => bvSearch cs
    else bvSearch cs

/-- The regex character class `[0-9A-Za-z_-]`. -/
def isYTChar (c : Char) : Bool := isAlnum c || c = '_' || c = '-'

/-- `{11}`: match exactly eleven id characters at the current position. -/
def take11 (l : Str) : Option Str :=
  if 11 ≤ (l.takeWhile isYTChar).length then some ((l.takeWhile isYTChar).take 11) else none

/-- `re.search(r"(?:v=|youtu\.be/)([0-9A-Za-z_-]{11})", url)`: at each
position try `v=`, then `youtu.be/` (the two prefixes cannot match at the
same position), then capture exactly eleven id characters. -/
def ytSearch : Str → Option Str
  | [] => none
  | c :: cs =>
    (match c, cs with
      | 'v', '=' :: rest => take11 rest
      | 'y', 'o' :: 'u' :: 't' :: 'u' :: '.' :: 'b' :: 'e' :: '/' :: rest => take11 rest
      | _, _ => none).orElse (fun _ => ytSearch cs)

/-- `re.search(r"/video/(\d+)", url)`: leftmost `/video/` followed by at
least one decimal digit; capture the maximal digit run (ASCII digits; the
full Unicode `\d` class is not modelled). -/
def dySearch : Str → Option Str
  | [] => none
  | c :: cs =>
    (match c, cs with
      | '/', 'v' :: 'i' :: 'd' :: 'e' :: 'o' :: '/' :: d :: ds =>
        if d.isDigit then some (d :: ds.takeWhile Char.isDigit) else none
      | _, _ => none).orElse (fun _ => dySearch cs)

/-- Embedding of `extract_video_id` (utils.py:66-89): dispatch on the
platform tag; any unmatched tag falls through to `None`. -/
def extract_video_id (url : Str) (platform : Str) : Option Str :=
  if platform = "bilibili".toList then bvSearch url
  else if platform = "youtube".toList then ytSearch url
  else if platform = "douyin".toList then dySearch url
  else none

lemma takeWhile_all_append (p : Char → Bool) :
    ∀ (xs ys : Str), (∀ c ∈ xs, p c = true) →
      (∀ c, ys.head? = some c → p c = false) → (xs ++ ys).takeWhile p = xs := by
  intro xs
  induction xs with
  | nil =>
    intro ys _ h2
    cases ys with
    | nil => rfl
    | cons y ys' => simp [List.takeWhile_cons, h2 y rfl]
  | cons x xs' ih =>
    intro ys h1 h2
    simp [List.takeWhile_cons, h1 x (by simp),
      ih ys (fun c hc => h1 c (by simp [hc])) h2]

/-- Leftmost-match behaviour of the bilibili pattern: if no `'B'` occurs
before it, a `BV` followed by a nonempty alphanumeric token (delimited on the
right by a non-alphanumeric character or the end of the string) is captured
as `"BV" + token`. -/
lemma bvSearch_found : ∀ (pre tok post : Str), 'B' ∉ pre → tok ≠ [] →
    (∀ c ∈ tok, isAlnum c = true) → (∀ c, post.head? = some c → isAlnum c = false) →
    bvSearch (pre ++ 'B' :: 'V' :: (tok ++ post)) = some ('B' :: 'V' :: tok) := by
  intro pre
  induction pre with
  | nil =>
    intro tok post _ hne htok hpost
    cases tok with
    | nil => exact absurd rfl hne
    | cons d ds =>
      show bvSearch ('B' :: 'V' :: d :: (ds ++ post)) = _
      simp only [bvSearch, if_pos rfl]
      rw [if_pos (htok d (by simp)),
        takeWhile_all_append isAlnum ds post (fun c hc => htok c (by simp [hc])) hpost]
      simp
  | cons q pre' ih =>
    intro tok post hpre hne htok hpost
    have hq : q ≠ 'B' := fun h => hpre (by simp [h])
    have hpre' : 'B' ∉ pre' := fun h => hpre (by simp [h])
    show bvSearch (q :: (pre' ++ 'B' :: 'V' :: (tok ++ post))) = _
    simp only [bvSearch, if_neg hq]
    exact ih tok post hpre' hne htok hpost

/-- C5: `extract_id` is a deterministic pure function; for `"bilibili"` it
returns `"BV"` plus the alphanumeric token following the first `BV` anywhere
in the URL (or `none` if absent), for `"youtube"` the 11-character token
following `v=` or `youtu.be/`, for `"douyin"` the digit sequence following
`/video/`, and for every unknown platform tag it returns `none` rather than
failing. -/
theorem claimC5_extract_id :
    extract_video_id "https://www.bilibili.com/video/BV1vc411b7Wa".toList "bilibili".toList
      = some "BV1vc411b7Wa".toList ∧
    extract_video_id "https://www.example.com/video/abc".toList "bilibili".toList = none ∧
    extract_video_id "https://youtu.be/dQw4w9WgXcQ".toList "youtube".toList
      = some "dQw4w9WgXcQ".toList ∧
    extract_video_id "https://www.youtube.com/watch?v=dQw4w9WgXcQ&t=1".toList "youtube".toList
      = some "dQw4w9WgXcQ".toList ∧
    extract_video_id "https://youtu.be/short".toList "youtube".toList = none ∧
    extract_video_id "https://www.douyin.com/video/7340987654321098765".toList "douyin".toList
      = some "7340987654321098765".toList ∧
    (∀ (pre tok post : Str), 'B' ∉ pre → tok ≠ [] →
      (∀ c ∈ tok, isAlnum c = true) → (∀ c, post.head? = some c → isAlnum c = false) →
      extract_video_id (pre ++ 'B' :: 'V' :: (tok ++ post)) "bilibili".toList
        = some ('B' :: 'V' :: tok)) ∧
    (∀ (url p : Str), p ≠ "bilibili".toList → p ≠ "youtube".toList → p ≠ "douyin".toList →
      extract_video_id url p = none) := by
  refine ⟨by decide, by decide, by decide, by decide, by decide, by decide, ?_, ?_⟩
  · intro pre tok post h1 h2 h3 h4
    show bvSearch _ = _
    exact bvSearch_found pre tok post h1 h2 h3 h4
  · intro url p hp1 hp2 hp3
    unfold extract_video_id
    rw [if_neg hp1, if_neg hp2, if_neg hp3]

/-- Witness for C5: the unknown-platform clause at the concrete tag
`"twitch"`, and the leftmost-`BV` clause at a concrete decomposition. -/
theorem claimC5_witness :
    extract_video_id "https://example.com/x".toList "twitch".toList = none ∧
    extract_video_id ("xy".toList ++ 'B' :: 'V' :: ("9zz".toList ++ "/?q".toList))
        "bilibili".toList = some ('B' :: 'V' :: "9zz".toList) :=
  ⟨claimC5_extract_id.2.2.2.2.2.2.2 "https://example.com/x".toList "twitch".toList
      (by decide) (by decide) (by decide),
    claimC5_extract_id.2.2.2.2.2.2.1 "xy".toList "9zz".toList "/?q".toList
      (by decide) (by decide) (by decide) (by decide)⟩

/-!  ## Backend registry (`downloader.py`) -/

inductive Platform
  | bilibili
  | youtube
  | local
  deriving DecidableEq

/-- A constructed downloader: the variant plus the read-only base-class state
set by `Downloader.__init__` (`quality = QUALITY_MAP.get('fast') = "32"`). -/
structure Downloader where
  kind : Platform
  quality : Str
  deriving DecidableEq

/-- A freshly constructed backend of the given variant (`downloader_cls()`). -/
def mkDownloader (k : Platform) : Downloader := ⟨k, "32".toList⟩

/-- Python `str.lower()` for ASCII letters (no non-ASCII tags occur). -/
def lowerChar (c : Char) : Char :=
  if 'A' ≤ c ∧ c ≤ 'Z' then Char.ofNat (c.toNat + 32) else c

def pyLower (s : Str) : Str := s.map lowerChar

/-- The `PLATFORM_DOWNLOADERS` dict (downloader.py:404-409) as a lookup. -/
def PLATFORM_DOWNLOADERS (tag : Str) : Option Platform :=
  if tag = "bilibili".toList then some .bilibili
  else if tag = "youtube".toList then some .youtube
  else if tag = "local".toList then some .local
  else none

inductive RegistryError
  | UnsupportedPlatform (tag : Str)
  deriving DecidableEq

/-- Embedding of `get_downloader` (downloader.py:412-423): look the
lowercased tag up in `PLATFORM_DOWNLOADERS`; a missing entry raises
`ValueError(f"不支持的平台: {platform}")` naming the original tag; otherwise
construct a fresh instance of the found class. -/
def get_downloader (platform : Str) : Except RegistryError Downloader :=
  match PLATFORM_DOWNLOADERS (pyLower platform) with
  | some k => .ok (mkDownloader k)
  | none => .error (.UnsupportedPlatform platform)

/-- C3: registry resolution is case-insensitive (tags with equal lowercasing
resolve to the same backend, or both fail), a tag whose lowercasing is not
one of `bilibili`/`youtube`/`local` fails with `UnsupportedPlatform` naming
the offending tag, and every successful resolution is a freshly constructed
instance of the variant. -/
theorem claimC3_registry_resolve :
    (∀ t₁ t₂ : Str, pyLower t₁ = pyLower t₂ →
      (get_downloader t₁).toOption = (get_downloader t₂).toOption) ∧
    (∀ t : Str, pyLower t ≠ "bilibili".toList → pyLower t ≠ "youtube".toList →
      pyLower t ≠ "local".toList →
      get_downloader t = .error (.UnsupportedPlatform t)) ∧
    (∀ (t : Str) (d : Downloader), get_downloader t = .ok d → d = mkDownloader d.kind) ∧
    get_downloader "BILIBILI".toList = .ok (mkDownloader .bilibili) ∧
    get_downloader "bilibili".toList = .ok (mkDownloader .bilibili) ∧
    get_downloader "unknown".toList = .error (.UnsupportedPlatform "unknown".toList) := by
  refine ⟨?_, ?_, ?_, rfl, rfl, rfl⟩
  · intro t₁ t₂ h
    unfold get_downloader
    rw [h]
    cases PLATFORM_DOWNLOADERS (pyLower t₂) <;> rfl
  · intro t h1 h2 h3
    unfold get_downloader PLATFORM_DOWNLOADERS
    rw [if_neg h1, if_neg h2, if_neg h3]
  · intro t d h
    unfold get_downloader at h
    cases hp : PLATFORM_DOWNLOADERS (pyLower t) with
    | none => rw [hp] at h; exact absurd h (by simp)
    | some k =>
      rw [hp] at h
      have hkd : mkDownloader k = d := by
        simp only [Except.ok.injEq] at h
        exact h
      rw [← hkd]
      rfl

/-- Witness for C3: case-insensitivity at `"LOCAL"`/`"local"`, the error
clause at `"twitch"`, and freshness at a concrete resolution. -/
theorem claimC3_witness :
    (get_downloader "LOCAL".toList).toOption = (get_downloader "local".toList).toOption ∧
    get_downloader "twitch".toList = .error (.UnsupportedPlatform "twitch".toList) ∧
    mkDownloader .youtube = mkDownloader (mkDownloader Platform.youtube).kind :=
  ⟨claimC3_registry_resolve.1 "LOCAL".toList "local".toList (by decide),
    claimC3_registry_resolve.2.1 "twitch".toList (by decide) (by decide) (by decide),
    claimC3_registry_resolve.2.2.1 "YouTube".toList (mkDownloader .youtube) rfl⟩

/-!  ## Acquisition backends (`downloader.py`)

Filesystem interaction is modelled by predicates for the reads
(`Path.exists`, `Path.is_file`, `os.path.exists`) and by an explicit list of
side effects for the writes, so that "performs no filesystem writes before
failing" is a statement about the returned effect list.  The Python
exceptions are mapped to the spec's error taxonomy:
`FileNotFoundError`(missing input) ↦ `NotFound`, `ValueError`(not a file) ↦
`InvalidSource`, `ValueError`(bad extension) ↦ `UnsupportedFormat`,
`RuntimeError`(ffmpeg) ↦ `ToolFailure`, a raising engine ↦ `EngineFailure`,
`FileNotFoundError`(after download) ↦ `MissingArtifact`. -/

inductive Eff
  | mkdirs (dir : Str)
  | ffmpeg (src dst : Str)
  | ffprobe (src : Str)
  | engine (url : Str)
  deriving DecidableEq

inductive AcqError
  | NotFound (p : Str)
  | InvalidSource (p : Str)
  | UnsupportedFormat (suffix : Str)
  | ToolFailure
  | EngineFailure
  | MissingArtifact (p : Str)
  deriving DecidableEq

/-- `PurePath.name`: final path component, trailing separators dropped. -/
def pathName (p : Str) : Str :=
  ((p.reverse.dropWhile (fun c => c == '/')).takeWhile (fun c => !(c == '/'))).reverse

/-- `PurePath.suffix`: the part of the name from its last `'.'` on, provided
that dot is neither the first nor the last character of the name; else `""`. -/
def pathSuffix (p : Str) : Str :=
  let n := pathName p
  let post := n.reverse.takeWhile (fun c => !(c == '.'))
  if post.length = n.length then []
  else if 0 < n.length - post.length - 1 ∧ n.length - post.length - 1 < n.length - 1 then
    '.' :: post.reverse
  else []

/-- `PurePath.stem`: the name with the suffix removed. -/
def pathStem (p : Str) : Str :=
  (pathName p).take ((pathName p).length - (pathSuffix p).length)

/-- The fixed allow-list of video container extensions
(downloader.py:287: `video_extensions`). -/
def video_extensions : List Str :=
  [".mp4", ".avi", ".mkv", ".mov", ".flv", ".wmv", ".webm", ".m4v"].map String.toList

/-- The observable state the local backend reads: existence and
regular-file status of paths, whether the ffmpeg invocation succeeds, and
the duration ffprobe reports (`none` models a failing probe, degraded to 0). -/
structure LocalFS where
  pathExists : Str → Bool
  pathIsFile : Str → Bool
  ffmpegOk : Bool
  probeDuration : Option Int

structure AudioDownloadResult where
  file_path : Str
  title : Str
  duration : Int
  cover_url : Option Str
  platform : Str
  video_id : Str
  raw_local_path : Str
  video_path : Option Str
  deriving DecidableEq

/-- Embedding of `LocalVideoDownloader.download` (downloader.py:265-345):
validate existence, regular-file status and (lowercased) extension before
any write; then create the output directory, run ffmpeg to
`<output_dir>/<stem>.mp3`, probe the duration and assemble the result.
`output_dir` is the resolved directory (the `None` default resolves to the
cache directory before this logic runs). -/
def LocalVideoDownloader_download (fs : LocalFS) (video_url : Str) (output_dir : Str) :
    List Eff × Except AcqError AudioDownloadResult :=
  if fs.pathExists video_url = false then ([], .error (.NotFound video_url))
  else if fs.pathIsFile video_url = false then ([], .error (.InvalidSource video_url))
  else if pyLower (pathSuffix video_url) ∉ video_extensions then
    ([], .error (.UnsupportedFormat (pathSuffix video_url)))
  else
    let audio_path := output_dir ++ '/' :: (pathStem video_url ++ ".mp3".toList)
    if fs.ffmpegOk = false then
      ([.mkdirs output_dir, .ffmpeg video_url audio_path], .error .ToolFailure)
    else
      ([.mkdirs output_dir, .ffmpeg video_url audio_path, .ffprobe video_url],
        .ok { file_path := audio_path
              title := pathStem video_url
              duration := fs.probeDuration.getD 0
              cover_url := none
              platform := "local".toList
              video_id := pathStem video_url
              raw_local_path := video_url
              video_path := some video_url })

/-- C4: the local backend's `acquire_audio` fails with `NotFound` when the
path does not exist, with `InvalidSource` when it is not a regular file, and
with `UnsupportedFormat` when its lowercased extension is outside the fixed
allow-list — in each case performing no filesystem writes (empty effect
list) before failing. -/
theorem claimC4_local_audio_validation :
    ∀ (fs : LocalFS) (p outDir : Str),
      (fs.pathExists p = false →
        LocalVideoDownloader_download fs p outDir = ([], .error (.NotFound p))) ∧
      (fs.pathExists p = true → fs.pathIsFile p = false →
        LocalVideoDownloader_download fs p outDir = ([], .error (.InvalidSource p))) ∧
      (fs.pathExists p = true → fs.pathIsFile p = true →
        pyLower (pathSuffix p) ∉ video_extensions →
        LocalVideoDownloader_download fs p outDir
          = ([], .error (.UnsupportedFormat (pathSuffix p)))) := by
  intro fs p outDir
  refine ⟨fun h1 => ?_, fun h1 h2 => ?_, fun h1 h2 h3 => ?_⟩
  · simp [LocalVideoDownloader_download, h1]
  · simp [LocalVideoDownloader_download, h1, h2]
  · simp [LocalVideoDownloader_download, h1, h2, h3]

/-- Witness for C4: all three failure clauses at concrete inputs, including
the spec's `.txt` example for `UnsupportedFormat`. -/
theorem claimC4_witness :
    LocalVideoDownloader_download ⟨fun _ => false, fun _ => true, true, none⟩
        "/v/clip.mp4".toList "/out".toList
      = ([], .error (.NotFound "/v/clip.mp4".toList)) ∧
    LocalVideoDownloader_download ⟨fun _ => true, fun _ => false, true, none⟩
        "/v".toList "/out".toList
      = ([], .error (.InvalidSource "/v".toList)) ∧
    LocalVideoDownloader_download ⟨fun _ => true, fun _ => true, true, none⟩
        "/v/notes.txt".toList "/out".toList
      = ([], .error (.UnsupportedFormat ".txt".toList)) := by
  refine ⟨?_, ?_, ?_⟩
  · exact (claimC4_local_audio_validation _ _ _).1 rfl
  · exact (claimC4_local_audio_validation _ _ _).2.1 rfl rfl
  · have h := (claimC4_local_audio_validation
      ⟨fun _ => true, fun _ => true, true, none⟩ "/v/notes.txt".toList "/out".toList).2.2
      rfl rfl (by decide)
    rw [h]
    have : pathSuffix "/v/notes.txt".toList = ".txt".toList := by decide
    rw [this]

/-- Embedding of `LocalVideoDownloader.download_video` (downloader.py:351-369):
it checks only that the path exists (else `FileNotFoundError`), then returns
the path; it re-checks neither regular-file status nor extension. -/
def LocalVideoDownloader_download_video (fs : LocalFS) (video_url : Str) :
    Except AcqError Str :=
  if fs.pathExists video_url = false then .error (.NotFound video_url)
  else .ok video_url

/-- C9 counterexample: at a path with the unsupported extension `.txt` that
exists but is not a regular file, `download_video` returns the path
successfully, while the claim mandates failure (`InvalidSource` /
`UnsupportedFormat`); the result is not an error of any kind. -/
theorem claimC9_counterexample :
    LocalVideoDownloader_download_video ⟨fun _ => true, fun _ => false, true, none⟩
        "/tmp/a.txt".toList
      = .ok "/tmp/a.txt".toList ∧
    pyLower (pathSuffix "/tmp/a.txt".toList) ∉ video_extensions ∧
    (∀ e : AcqError,
      LocalVideoDownloader_download_video ⟨fun _ => true, fun _ => false, true, none⟩
        "/tmp/a.txt".toList ≠ .error e) := by
  refine ⟨rfl, by decide, fun e h => ?_⟩
  rw [show LocalVideoDownloader_download_video ⟨fun _ => true, fun _ => false, true, none⟩
      "/tmp/a.txt".toList = .ok "/tmp/a.txt".toList from rfl] at h
  exact Except.noConfusion h

/-- C9 (amended): the local backend's `acquire_video` validates only
existence — it fails with `NotFound` when the path does not exist and
otherwise returns the input path unchanged, without re-checking regular-file
status or extension. -/
theorem claimC9_local_video_passthrough :
    ∀ (fs : LocalFS) (p : Str),
      (fs.pathExists p = false →
        LocalVideoDownloader_download_video fs p = .error (.NotFound p)) ∧
      (fs.pathExists p = true → LocalVideoDownloader_download_video fs p = .ok p) := by
  intro fs p
  refine ⟨fun h => ?_, fun h => ?_⟩
  · simp [LocalVideoDownloader_download_video, h]
  · simp [LocalVideoDownloader_download_video, h]

/-- Witness for C9 (amended): both clauses at concrete inputs. -/
theorem claimC9_witness :
    LocalVideoDownloader_download_video ⟨fun _ => false, fun _ => false, true, none⟩
        "/x.mp4".toList = .error (.NotFound "/x.mp4".toList) ∧
    LocalVideoDownloader_download_video ⟨fun _ => true, fun _ => false, true, none⟩
        "/x.mp4".toList = .ok "/x.mp4".toList :=
  ⟨(claimC9_local_video_passthrough _ _).1 rfl, (claimC9_local_video_passthrough _ _).2 rfl⟩

/-- The observable outcome of one external-engine (`yt_dlp`) invocation:
whether it raised, the `id` field of the info dict it returned, and the
filesystem contents after it ran. -/
structure EngineRun where
  raised : Bool
  infoId : Option Str
  fsAfter : Str → Bool

/-- Python f-string interpolation of an `Optional[str]`: `None` renders as
`"None"`. -/
def pyStrOpt (o : Option Str) : Str := o.getD "None".toList

/-- Embedding of `BilibiliDownloader.download_video` (downloader.py:121-159)
and `YoutubeDownloader.download_video` (downloader.py:218-255), which differ
only in the platform tag passed to `extract_video_id` and in the yt-dlp
format options (which do not affect control flow): create the output
directory, compute the cache path from the extracted canonical id, return it
if a file already exists there without invoking the engine; otherwise invoke
the engine, recompute the path from the id the engine reports, and fail with
`FileNotFoundError` (`MissingArtifact`) if no file exists there. -/
def remote_download_video (platform : Str) (fs : Str → Bool) (eng : EngineRun)
    (video_url output_dir : Str) : List Eff × Except AcqError Str :=
  let cache_path :=
    output_dir ++ '/' :: (pyStrOpt (extract_video_id video_url platform) ++ ".mp4".toList)
  if fs cache_path = true then ([.mkdirs output_dir], .ok cache_path)
  else if eng.raised = true then
    ([.mkdirs output_dir, .engine video_url], .error .EngineFailure)
  else
    let final_path := output_dir ++ '/' :: (pyStrOpt eng.infoId ++ ".mp4".toList)
    if eng.fsAfter final_path = true then
      ([.mkdirs output_dir, .engine video_url], .ok final_path)
    else
      ([.mkdirs output_dir, .engine video_url], .error (.MissingArtifact final_path))

/-- C7: for every remote-platform backend's `acquire_video` call, when a file
already exists at the deterministic path derived from the canonical id the
call returns that path and the engine is never invoked; and when the engine
is invoked, does not raise, but the expected file is absent at the derived
path, the call fails with `MissingArtifact` rather than returning. -/
theorem claimC7_remote_video_cache_and_artifact :
    ∀ (platform : Str) (fs : Str → Bool) (eng : EngineRun) (url outDir : Str),
      (fs (outDir ++ '/' :: (pyStrOpt (extract_video_id url platform) ++ ".mp4".toList)) = true →
        remote_download_video platform fs eng url outDir
          = ([.mkdirs outDir],
              .ok (outDir ++ '/' :: (pyStrOpt (extract_video_id url platform) ++ ".mp4".toList))) ∧
        Eff.engine url ∉ (remote_download_video platform fs eng url outDir).1) ∧
      (fs (outDir ++ '/' :: (pyStrOpt (extract_video_id url platform) ++ ".mp4".toList)) = false →
        eng.raised = false →
        eng.fsAfter (outDir ++ '/' :: (pyStrOpt eng.infoId ++ ".mp4".toList)) = false →
        (remote_download_video platform fs eng url outDir).2
          = .error (.MissingArtifact (outDir ++ '/' :: (pyStrOpt eng.infoId ++ ".mp4".toList)))) := by
  intro platform fs eng url outDir
  refine ⟨fun h => ⟨?_, ?_⟩, fun h1 h2 h3 => ?_⟩
  · simp only [remote_download_video]
    rw [if_pos h]
  · simp only [remote_download_video]
    rw [if_pos h]
    simp
  · simp only [remote_download_video]
    rw [if_neg (by rw [h1]; decide), if_neg (by rw [h2]; decide), if_neg (by rw [h3]; decide)]

/-- Witness for C7: the cached case with an everywhere-true filesystem, and
the missing-artifact case with an engine whose output file never appears. -/
theorem claimC7_witness :
    remote_download_video "bilibili".toList (fun _ => true)
        ⟨false, some "BV1vc411b7Wa".toList, fun _ => false⟩
        "https://www.bilibili.com/video/BV1vc411b7Wa".toList "/data".toList
      = ([.mkdirs "/data".toList], .ok "/data/BV1vc411b7Wa.mp4".toList) ∧
    (remote_download_video "bilibili".toList (fun _ => false)
        ⟨false, some "BV1vc411b7Wa".toList, fun _ => false⟩
        "https://www.bilibili.com/video/BV1vc411b7Wa".toList "/data".toList).2
      = .error (.MissingArtifact "/data/BV1vc411b7Wa.mp4".toList) := by
  constructor
  · have h := (claimC7_remote_video_cache_and_artifact "bilibili".toList (fun _ => true)
      ⟨false, some "BV1vc411b7Wa".toList, fun _ => false⟩
      "https://www.bilibili.com/video/BV1vc411b7Wa".toList "/data".toList).1 rfl
    rw [h.1]
    have hpath : "/data".toList ++ '/' ::
        (pyStrOpt (extract_video_id "https://www.bilibili.com/video/BV1vc411b7Wa".toList
          "bilibili".toList) ++ ".mp4".toList) = "/data/BV1vc411b7Wa.mp4".toList := by decide
    rw [hpath]
  · have h := (claimC7_remote_video_cache_and_artifact "bilibili".toList (fun _ => false)
      ⟨false, some "BV1vc411b7Wa".toList, fun _ => false⟩
      "https://www.bilibili.com/video/BV1vc411b7Wa".toList "/data".toList).2 rfl rfl rfl
    rw [h]
    have hpath : "/data".toList ++ '/' ::
        (pyStrOpt (EngineRun.infoId ⟨false, some "BV1vc411b7Wa".toList, fun _ => false⟩)
          ++ ".mp4".toList) = "/data/BV1vc411b7Wa.mp4".toList := by decide
    rw [hpath]

/-!  ## Search adapter (`bilibili_search.py`) -/

/-- A raw search entry as the external search API returns it: exactly the
fields the normaliser reads, each possibly missing (`dict.get` defaults
apply when a field is absent). -/
structure RawVideo where
  bvid : Option Str
  title : Option Str
  duration : Option Str
  play : Option Int
  author : Option Str

structure VideoInfo where
  url : Str
  title : Str
  bvid : Str
  duration : Int
  play : Int
  author : Str
  deriving DecidableEq

/-- Normalisation of one raw entry (the body of the result loop,
bilibili_search.py:79-102): a missing or empty `bvid` drops the entry,
otherwise build the summary record with the documented defaults. -/
def normEntry (v : RawVideo) : Option VideoInfo :=
  match v.bvid.getD [] with
  | [] => none
  | b => some
      { url := "https://www.bilibili.com/video/".toList ++ b
        title := v.title.getD "未知标题".toList
        bvid := b
        duration := parse_duration (v.duration.getD "0:00".toList)
        play := v.play.getD 0
        author := v.author.getD "未知UP主".toList }

/-- Embedding of the result loop of `search_bilibili_videos`
(bilibili_search.py:79-102): iterate over `videos[:count]` in order,
skipping entries with an empty `bvid` and appending the normalised record
otherwise.  (The per-entry `try`/`except` has nothing to catch here: none of
the modelled operations raise.) -/
def search_normalize (videos : List RawVideo) (count : Nat) : List VideoInfo :=
  (videos.take count).foldl
    (fun acc v =>
      match normEntry v with
      | some info => acc ++ [info]
      | none => acc) []

lemma search_fold (l : List RawVideo) :
    ∀ acc, l.foldl
        (fun acc v =>
          match normEntry v with
          | some info => acc ++ [info]
          | none => acc) acc
      = acc ++ l.filterMap normEntry := by
  induction l with
  | nil => intro acc; simp
  | cons v vs ih =>
    intro acc
    cases h : normEntry v with
    | none => simp [List.foldl_cons, h, ih, List.filterMap_cons]
    | some i => simp [List.foldl_cons, h, ih, List.filterMap_cons]

/-- C10: for every raw result list, the adapter considers only the first
`count` raw entries, in order, drops exactly those without a canonical id,
and therefore never returns more than `count` normalised entries. -/
theorem claimC10_search_normalize_bound :
    ∀ (videos : List RawVideo) (count : Nat),
      search_normalize videos count = (videos.take count).filterMap normEntry ∧
      (search_normalize videos count).length ≤ count := by
  intro videos count
  have he : search_normalize videos count = (videos.take count).filterMap normEntry := by
    unfold search_normalize
    rw [search_fold]
    simp
  refine ⟨he, ?_⟩
  rw [he]
  exact le_trans (List.length_filterMap_le _ _) (List.length_take_le _ _)

/-!  ## Play-count formatter (`bilibili_search.py`, format_play_count)

`count / 10000` is CPython `int.__truediv__`, which returns the
correctly-rounded IEEE-754 binary64 double of the exact quotient, and
`f"{x:.1f}"` renders the exact value of that double rounded to one decimal
digit with ties to even.  Both steps are modelled exactly: a positive double
is represented as a mantissa/exponent pair `(m, s)` with value `m·2^s` and
`m ∈ [2^52, 2^53]`, computed by correct rounding of the exact fraction
(round to nearest, ties to even).  Overflow to infinity — reachable only for
counts ≥ ~1.8·10^312, where CPython raises `OverflowError` — is not
modelled; nor are subnormals, unreachable here since the quotient is ≥ 1. -/

/-- `⌊log₂ n⌋` with explicit fuel (`0` for `n ≤ 1`). -/
def lg2 : Nat → Nat → Nat
  | _, 0 => 0
  | _, 1 => 0
  | 0, _ => 0
  | fuel + 1, n => lg2 fuel (n / 2) + 1

def natLog2 (n : Nat) : Nat := lg2 n n

/-- Round the fraction `n / d` (with `d > 0`) to the nearest natural number,
ties to even. -/
def roundFracHalfEven (n d : Nat) : Nat :=
  let q := n / d
  let r := n % d
  if 2 * r < d then q
  else if d < 2 * r then q + 1
  else if q % 2 = 0 then q else q + 1

/-- Decide `n / d < 2^c` for an integer exponent `c`. -/
def fracLtPow2 (n d : Nat) (c : Int) : Bool :=
  if 0 ≤ c then n < 2 ^ c.toNat * d else n * 2 ^ (-c).toNat < d

/-- `⌊log₂ (n/d)⌋` for positive `n`, `d`: start from the bit-length estimate
and correct it by direct comparison (the true exponent is always the
estimate or one below it; the final branch is defensive). -/
def flog2 (n d : Nat) : Int :=
  let c : Int := (natLog2 n : Int) - (natLog2 d : Int)
  if fracLtPow2 n d c then c - 1 else if fracLtPow2 n d (c + 1) then c else c + 1

/-- Multiply the fraction `n / d` by `2^(-s)`, keeping it a `Nat` fraction. -/
def shiftFrac (n d : Nat) (s : Int) : Nat × Nat :=
  if 0 ≤ s then (n, d * 2 ^ s.toNat) else (n * 2 ^ (-s).toNat, d)

/-- The correctly-rounded binary64 double of `n / d` (both positive), as a
mantissa/exponent pair `(m, s)` of value `m·2^s`: scale the fraction into
`[2^52, 2^53)` and round to nearest, ties to even. -/
def doubleOfDiv (n d : Nat) : Nat × Int :=
  let e := flog2 n d
  let p := shiftFrac n d (e - 52)
  (roundFracHalfEven p.1 p.2, e - 52)

/-- `f"{x:.1f}"` for the positive double `x` obtained as `n / d`: round the
exact value of the double times 10 to an integer, ties to even, and print
`integer-part.final-digit`. -/
def formatDot1Div (n d : Nat) : Str :=
  let md := doubleOfDiv n d
  let p := shiftFrac (md.1 * 10) 1 (-md.2)
  let t := roundFracHalfEven p.1 p.2
  natRepr (t / 10) ++ '.' :: natRepr (t % 10)

/-- Embedding of `format_play_count` (bilibili_search.py:141-149): counts
`≥ 10000` render as `f"{count / 10000:.1f}万"`, smaller counts as
`str(count)`. -/
def format_play_count (count : Nat) : Str :=
  if 10000 ≤ count then formatDot1Div count 10000 ++ ['万'] else natRepr count

lemma lg2_bounds (fuel : Nat) : ∀ n : Nat, 0 < n → n ≤ fuel →
    2 ^ lg2 fuel n ≤ n ∧ n < 2 ^ (lg2 fuel n + 1) := by
  induction fuel with
  | zero => intro n h1 h2; omega
  | succ f ih =>
    intro n h1 h2
    match n with
    | 1 => simp [lg2]
    | m + 2 =>
      have IH := ih ((m + 2) / 2) (by omega) (by omega)
      simp only [lg2]
      rw [pow_succ, pow_succ]
      rw [pow_succ] at IH
      omega

lemma natLog2_bounds (n : Nat) (h : 0 < n) :
    2 ^ natLog2 n ≤ n ∧ n < 2 ^ (natLog2 n + 1) :=
  lg2_bounds n n h le_rfl

lemma flog2_lower (n d : Nat) (hn : 0 < n) (hd : 0 < d) :
    fracLtPow2 n d ((natLog2 n : Int) - (natLog2 d : Int) - 1) = false := by
  obtain ⟨hn1, hn2⟩ := natLog2_bounds n hn
  obtain ⟨hd1, hd2⟩ := natLog2_bounds d hd
  set a := natLog2 n with ha
  set b := natLog2 d with hb
  unfold fracLtPow2
  by_cases hc : (0 : Int) ≤ (a : Int) - b - 1
  · rw [if_pos hc]
    simp only [decide_eq_false_iff_not, not_lt]
    have htn : ((a : Int) - b - 1).toNat = a - b - 1 := by omega
    rw [htn]
    calc 2 ^ (a - b - 1) * d ≤ 2 ^ (a - b - 1) * 2 ^ (b + 1) :=
          Nat.mul_le_mul_left _ (le_of_lt hd2)
      _ = 2 ^ a := by rw [← pow_add]; congr 1; omega
      _ ≤ n := hn1
  · rw [if_neg hc]
    simp only [decide_eq_false_iff_not, not_lt]
    have hk : (-(((a : Int) - b - 1))).toNat = b + 1 - a := by omega
    rw [hk]
    calc d ≤ 2 ^ (b + 1) := le_of_lt hd2
      _ = 2 ^ a * 2 ^ (b + 1 - a) := by rw [← pow_add]; congr 1; omega
      _ ≤ n * 2 ^ (b + 1 - a) := Nat.mul_le_mul_right _ hn1

lemma flog2_upper (n d : Nat) (hn : 0 < n) (hd : 0 < d) :
    fracLtPow2 n d ((natLog2 n : Int) - (natLog2 d : Int) + 1) = true := by
  obtain ⟨hn1, hn2⟩ := natLog2_bounds n hn
  obtain ⟨hd1, hd2⟩ := natLog2_bounds d hd
  set a := natLog2 n with ha
  set b := natLog2 d with hb
  unfold fracLtPow2
  by_cases hc : (0 : Int) ≤ (a : Int) - b + 1
  · rw [if_pos hc]
    simp only [decide_eq_true_eq]
    have htn : ((a : Int) - b + 1).toNat = a + 1 - b := by omega
    rw [htn]
    calc n < 2 ^ (a + 1) := hn2
      _ = 2 ^ (a + 1 - b) * 2 ^ b := by rw [← pow_add]; congr 1; omega
      _ ≤ 2 ^ (a + 1 - b) * d := Nat.mul_le_mul_left _ hd1
  · rw [if_neg hc]
    simp only [decide_eq_true_eq]
    have hk : (-(((a : Int) - b + 1))).toNat = b - a - 1 := by omega
    rw [hk]
    calc n * 2 ^ (b - a - 1) < 2 ^ (a + 1) * 2 ^ (b - a - 1) :=
          Nat.mul_lt_mul_of_lt_of_le hn2 le_rfl (Nat.pos_pow_of_pos _ (by norm_num))
      _ = 2 ^ b := by rw [← pow_add]; congr 1; omega
      _ ≤ d := hd1

/-- `flog2` really is the binade exponent: `2^e ≤ n/d < 2^(e+1)`, stated via
the comparison function (`fracLtPow2 n d e = false` is `2^e ≤ n/d`).  This is
what makes `doubleOfDiv` scale its argument into `[2^52, 2^53)` before
rounding, i.e. what makes the binary64 model correct. -/
lemma flog2_spec (n d : Nat) (hn : 0 < n) (hd : 0 < d) :
    fracLtPow2 n d (flog2 n d) = false ∧ fracLtPow2 n d (flog2 n d + 1) = true := by
  unfold flog2
  by_cases h1 : fracLtPow2 n d ((natLog2 n : Int) - natLog2 d) = true
  · rw [if_pos h1]
    refine ⟨flog2_lower n d hn hd, ?_⟩
    have he : (natLog2 n : Int) - natLog2 d - 1 + 1 = (natLog2 n : Int) - natLog2 d := by ring
    rw [he]
    exact h1
  · by_cases h2 : fracLtPow2 n d ((natLog2 n : Int) - natLog2 d + 1) = true
    · rw [if_neg h1, if_pos h2]
      exact ⟨by simpa using h1, h2⟩
    · exact absurd (flog2_upper n d hn hd) h2

lemma natRepr_single (n : Nat) (h : n < 10) : natRepr n = [digitChar n] := by
  interval_cases n <;> decide

lemma digitChar_isDigit (d : Nat) (h : d < 10) : (digitChar d).isDigit = true := by
  interval_cases d <;> decide

/-- C8: for every non-negative integer count, `format_play_count` renders
`count / 10000` (binary64 division) with exactly one decimal digit followed
by `"万"` when `count ≥ 10000`, and the plain decimal integer string
otherwise; in particular `format_play_count 10000 = "1.0万"`,
`format_play_count 1000000 = "100.0万"` and `format_play_count 9999 = "9999"`
(the extra cases pin the correctly-rounded float semantics: `1.05` rounds up
because its double is above the tie, `1.25` is an exact tie and rounds to
even). -/
theorem claimC8_format_play_count :
    (∀ count : Nat, 10000 ≤ count →
      ∃ (pre : Str) (dd : Char), dd.isDigit = true ∧
        format_play_count count = pre ++ '.' :: dd :: ['万']) ∧
    (∀ count : Nat, count < 10000 → format_play_count count = natRepr count) ∧
    format_play_count 10000 = "1.0万".toList ∧
    format_play_count 1000000 = "100.0万".toList ∧
    format_play_count 9999 = "9999".toList ∧
    format_play_count 10500 = "1.1万".toList ∧
    format_play_count 12500 = "1.2万".toList ∧
    format_play_count 123456 = "12.3万".toList := by
  refine ⟨?_, ?_, by decide, by decide, by decide, by decide, by decide, by decide⟩
  · intro count h
    refine ⟨natRepr ((roundFracHalfEven
        (shiftFrac ((doubleOfDiv count 10000).1 * 10) 1 (-(doubleOfDiv count 10000).2)).1
        (shiftFrac ((doubleOfDiv count 10000).1 * 10) 1 (-(doubleOfDiv count 10000).2)).2) / 10),
      digitChar (roundFracHalfEven
        (shiftFrac ((doubleOfDiv count 10000).1 * 10) 1 (-(doubleOfDiv count 10000).2)).1
        (shiftFrac ((doubleOfDiv count 10000).1 * 10) 1 (-(doubleOfDiv count 10000).2)).2 % 10),
      digitChar_isDigit _ (Nat.mod_lt _ (by norm_num)), ?_⟩
    unfold format_play_count
    rw [if_pos h]
    have hfd : formatDot1Div count 10000
        = natRepr (roundFracHalfEven
            (shiftFrac ((doubleOfDiv count 10000).1 * 10) 1 (-(doubleOfDiv count 10000).2)).1
            (shiftFrac ((doubleOfDiv count 10000).1 * 10) 1 (-(doubleOfDiv count 10000).2)).2 / 10)
          ++ '.' :: natRepr (roundFracHalfEven
            (shiftFrac ((doubleOfDiv count 10000).1 * 10) 1 (-(doubleOfDiv count 10000).2)).1
            (shiftFrac ((doubleOfDiv count 10000).1 * 10) 1 (-(doubleOfDiv count 10000).2)).2 % 10) :=
      rfl
    rw [hfd, natRepr_single _ (Nat.mod_lt _ (by norm_num))]
    simp
  · intro count h
    unfold format_play_count
    rw [if_neg (by omega)]

/-- Witness for C8: the one-decimal-place shape clause at the concrete count
54321, and the below-threshold clause at 42. -/
theorem claimC8_witness :
    (∃ (pre : Str) (dd : Char), dd.isDigit = true ∧
      format_play_count 54321 = pre ++ '.' :: dd :: ['万']) ∧
    format_play_count 42 = natRepr 42 :=
  ⟨claimC8_format_play_count.1 54321 (by decide),
    claimC8_format_play_count.2.1 42 (by decide)⟩

end VQE
